import Mathlib

/-!
Verification development for the Kartago-Engineers move-selection core
(`gameserver/gat-gameserver/alpha_beta_ki.py`): iterative-deepening negamax
with alpha-beta, null-move pruning, a lossy transposition table, and the
game-phase based time allocator, together with the static evaluator
(`evaluate.py`) and the win test (`win_check.py`).

The board/rules engine (`core/bitboard_rules.py`, `core/bitboard.py`,
`distance_test.py`) is an external collaborator of the specified core and its
source is not part of the search core; the search functions are therefore
embedded over an abstract `Engine` record supplying exactly the collaborator
operations the Python code calls (`get_legal_moves`, `make_move`,
`current_player`, `check_win_by_distance_or_capture`, `evaluate ∘ to_fen`,
`hash(fen) % 10000`, and the two board accessors used by move ordering).

Wall-clock time (`time.time() >= stop_time - TIME_BUFFER`) is embedded as a
list of booleans consumed one per deadline poll: `true` means the deadline
has passed at that poll.  `TimeoutError` is the `Except.error` path, carrying
the mutable global state at the moment of the raise, exactly as the Python
globals survive the exception.
-/

/-- Scores in the Python code mix `int` values with `float('inf')` and
`-float('inf')`; `XInt` is that ordered domain. -/
inductive XInt : Type where
  | ninf : XInt
  | val : Int → XInt
  | pinf : XInt
deriving DecidableEq, Repr

/-- Python `<=` on scores (ints and infinities). -/
def XInt.le : XInt → XInt → Bool
  | .ninf, _ => true
  | _, .pinf => true
  | .val a, .val b => decide (a ≤ b)
  | .val _, .ninf => false
  | .pinf, _ => false

/-- Python `<` on scores. -/
def XInt.lt (a b : XInt) : Bool := !(XInt.le b a)

/-- Python unary minus on scores (`-float('inf')` included). -/
def XInt.neg : XInt → XInt
  | .ninf => .pinf
  | .val a => .val (-a)
  | .pinf => .ninf

/-- Python `max` on scores. -/
def xmax (a b : XInt) : XInt := if XInt.le a b then b else a

/-- `WIN_SCORE = 100000` (alpha_beta_ki.py line 17). -/
def WIN_SCORE : Int := 100000

/-- `NULL_MOVE_REDUCTION = 1` (line 15). -/
def NULL_MOVE_REDUCTION : Nat := 1

/-- `MAX_DEPTH = 4` (line 13). -/
def MAX_DEPTH : Nat := 4

/-- The transposition table: Python dict keyed by `(hash(fen) % 10000, depth)`.
An association list looked up from the front; assignment prepends, which is
observationally the dict's overwrite. -/
def TTable : Type := List ((Nat × Nat) × XInt)

/-- `key in ttable` / `ttable[key]` lookup. -/
def ttLookup (t : TTable) (k : Nat × Nat) : Option XInt :=
  match t with
  | [] => none
  | (k', v) :: r => if k' = k then some v else ttLookup r k

/-- The mutable globals of one process: `nodes_visited`, `ttable`, and the
remaining deadline-poll outcomes. -/
structure SState : Type where
  nodes : Nat
  tt : List ((Nat × Nat) × XInt)
  clock : List Bool
deriving DecidableEq, Repr

/-- One poll of `time.time() >= stop_time - TIME_BUFFER`: consume the next
clock tick (an exhausted clock reads `false`, i.e. a far-future deadline). -/
def checkTime (s : SState) : Bool × SState :=
  match s.clock with
  | [] => (false, s)
  | b :: r => (b, { s with clock := r })

/-- `ttable[key] = v`. -/
def sStore (s : SState) (k : Nat × Nat) (v : XInt) : SState :=
  { s with tt := (k, v) :: s.tt }

/-- The external board/rules collaborator, as consumed by the search core.
`P` is the state of a `BitboardRules` object (board plus `current_player`
field), `M` the move type.
`curPlayer` reads `rules.current_player`; `setPlayer p q` is
`rules.current_player = q` on a deep copy; `makeMove` is deep copy plus
`rules.make_move(*mv)`; `hasWon p q` is
`check_win_by_distance_or_capture(p.board, q)`; `eval p q` is
`evaluate(p.board.to_fen(q), params)` for the active parameter set;
`keyOf p q` is `hash(p.board.to_fen(q)) % 10000`; `guardAt p mv` is
`get_top_piece_type(*mv.frm)` being the guardian (`WAECHTER`), and
`ownerAt p mv` is `get_stack_owner(*mv.to)`. -/
structure Engine (P M : Type) : Type where
  curPlayer : P → Nat
  legalMoves : P → Nat → List M
  makeMove : P → M → P
  setPlayer : P → Nat → P
  hasWon : P → Nat → Bool
  eval : P → Nat → Int
  keyOf : P → Nat → Nat
  guardAt : P → M → Bool
  ownerAt : P → M → Option Nat

variable {P M : Type}

/-- The classification step of `order_moves_fast` (lines 168-183): guardian
moves first, then moves to squares owned by the opponent, then the rest. -/
def omfStep (E : Engine P M) (pos : P) (acc : List M × List M × List M) (mv : M) :
    List M × List M × List M :=
  if E.guardAt pos mv then
    (acc.1 ++ [mv], acc.2.1, acc.2.2)
  else
    match E.ownerAt pos mv with
    | some q =>
        if q ≠ E.curPlayer pos then (acc.1, acc.2.1 ++ [mv], acc.2.2)
        else (acc.1, acc.2.1, acc.2.2 ++ [mv])
    | none => (acc.1, acc.2.1, acc.2.2 ++ [mv])

/-- `order_moves_fast(rules, moves)` (lines 153-186). -/
def order_moves_fast (E : Engine P M) (pos : P) (moves : List M) : List M :=
  if moves.isEmpty then moves
  else
    let r := moves.foldl (omfStep E pos) ([], [], [])
    r.1 ++ r.2.1 ++ r.2.2

/-- The `for mv in order_moves_fast(...)` loop of `negamax` (lines 240-249):
`child` is the recursive search at `depth - 1`, already fixed by the caller.
Returns the running `best` when the loop ends or breaks; a `TimeoutError`
from a child propagates. -/
def tryMoves (E : Engine P M)
    (child : P → XInt → XInt → Nat → SState → Except SState (XInt × SState))
    (pos : P) (beta : XInt) (player : Nat) :
    List M → XInt → XInt → SState → Except SState (XInt × SState)
  | [], best, _alpha, s => .ok (best, s)
  | mv :: rest, best, alpha, s =>
    match child (E.setPlayer (E.makeMove pos mv) (3 - player))
        (XInt.neg beta) (XInt.neg alpha) (3 - player) s with
    | .error s2 => .error s2
    | .ok (v, s2) =>
      let score := XInt.neg v
      let best2 := xmax best score
      let alpha2 := xmax alpha best2
      if XInt.le (XInt.val WIN_SCORE) best2 || XInt.le beta alpha2 then .ok (best2, s2)
      else tryMoves E child pos beta player rest best2 alpha2 s2

/-- The move-loop-plus-store tail of `negamax` (lines 239-252): run the loop
from `best = -inf` over the ordered legal moves, store the result under
`key`, return it. -/
def mainSearch (E : Engine P M)
    (child : P → XInt → XInt → Nat → SState → Except SState (XInt × SState))
    (pos : P) (alpha beta : XInt) (player : Nat) (key : Nat × Nat) (s : SState) :
    Except SState (XInt × SState) :=
  match tryMoves E child pos beta player
      (order_moves_fast E pos (E.legalMoves pos player)) XInt.ninf alpha s with
  | .error s2 => .error s2
  | .ok (best, s2) => .ok (best, sStore s2 key best)

/-- `negamax(rules, depth, alpha, beta, player, stop_time)` (lines 189-252),
with a structural fuel argument added so that the recursion is computable;
every reachable call has `fuel > depth` (the top-level wrapper passes
`depth + 1` and every recursive call lowers depth by at least one), so the
fuel-exhaustion branch is unreachable. -/
def negamaxF (E : Engine P M) :
    Nat → Nat → P → XInt → XInt → Nat → SState → Except SState (XInt × SState)
  | 0, _, _, _, _, _, s => .error s
  | fuel + 1, depth, pos, alpha, beta, player, s =>
    let c := checkTime s
    if c.1 then .error c.2
    else
      let s1 := { c.2 with nodes := c.2.nodes + 1 }
      let key := (E.keyOf pos player, depth)
      match ttLookup s1.tt key with
      | some v => .ok (v, s1)
      | none =>
        if E.hasWon pos player then
          .ok (XInt.val WIN_SCORE, sStore s1 key (XInt.val WIN_SCORE))
        else if E.hasWon pos (3 - player) then
          .ok (XInt.val (-WIN_SCORE), sStore s1 key (XInt.val (-WIN_SCORE)))
        else
          let moves := E.legalMoves pos player
          if depth = 0 || moves.isEmpty then
            let v := XInt.val (E.eval pos player)
            .ok (v, sStore s1 key v)
          else
            let child := fun p a b q s' => negamaxF E fuel (depth - 1) p a b q s'
            if 2 < depth then
              match negamaxF E fuel (depth - 1 - NULL_MOVE_REDUCTION)
                  (E.setPlayer pos (3 - player))
                  (XInt.neg beta) (XInt.neg alpha) player s1 with
              | .error s2 => .error s2
              | .ok (v, s2) =>
                let nval := XInt.neg v
                if XInt.le beta nval then .ok (beta, sStore s2 key beta)
                else mainSearch E child pos alpha beta player key s2
            else mainSearch E child pos alpha beta player key s1

/-- `negamax` proper: adequate fuel for the stated depth. -/
def negamax (E : Engine P M) (depth : Nat) (pos : P) (alpha beta : XInt)
    (player : Nat) (s : SState) : Except SState (XInt × SState) :=
  negamaxF E (depth + 1) depth pos alpha beta player s

/-- Outcome of one depth iteration of `iterative_deepening` (lines 272-288):
either the inner `TimeoutError` was raised (`timeout`, caught by the
`except` which breaks), or `local_best >= WIN_SCORE` returned the best move
immediately (`winstop`), or the root-move loop finished (`finished`).  Each
carries the outer-scoped `best_mv` and the global state. -/
inductive RootOut (M : Type) : Type where
  | timeout : Option M → SState → RootOut M
  | winstop : Option M → SState → RootOut M
  | finished : Option M → SState → RootOut M
deriving DecidableEq

/-- The `for mv in root_moves` loop of one depth iteration (lines 275-286). -/
def rootLoop (E : Engine P M) (pos : P) (player : Nat) (depth : Nat) :
    List M → XInt → XInt → XInt → Option M → SState → RootOut M
  | [], _alpha, _beta, _lb, bm, s => .finished bm s
  | mv :: rest, alpha, beta, lb, bm, s =>
    let c := checkTime s
    if c.1 then .timeout bm c.2
    else
      match negamax E (depth - 1) (E.setPlayer (E.makeMove pos mv) (3 - player))
          (XInt.neg beta) (XInt.neg alpha) (3 - player) c.2 with
      | .error s2 => .timeout bm s2
      | .ok (v, s2) =>
        let score := XInt.neg v
        let lb2 := if XInt.lt lb score then score else lb
        let bm2 := if XInt.lt lb score then some mv else bm
        let alpha2 := xmax alpha score
        if XInt.le (XInt.val WIN_SCORE) lb2 then .winstop bm2 s2
        else rootLoop E pos player depth rest alpha2 beta lb2 bm2 s2

/-- The `for depth in range(1, MAX_DEPTH + 1)` loop (lines 271-288): each
depth restarts `alpha, beta = -inf, inf` and `local_best = -inf`; a timeout
breaks (returning the outer `best_mv` as left by the aborted iteration), a
proven win returns immediately, a finished depth carries its `best_mv` into
the next. -/
def depthLoop (E : Engine P M) (pos : P) (player : Nat) (rootMoves : List M) :
    List Nat → Option M → SState → Option M × SState
  | [], bm, s => (bm, s)
  | d :: rest, bm, s =>
    match rootLoop E pos player d rootMoves XInt.ninf XInt.pinf XInt.ninf bm s with
    | .timeout bm2 s2 => (bm2, s2)
    | .winstop bm2 s2 => (bm2, s2)
    | .finished bm2 s2 => depthLoop E pos player rootMoves rest bm2 s2

/-- `iterative_deepening(rules, budget)` (lines 255-290): reset
`nodes_visited` and clear `ttable`, order the root moves once, then run
depths `1..MAX_DEPTH`.  The seconds value of the budget only feeds the
wall clock, which the clock list embeds. -/
def iterative_deepening (E : Engine P M) (pos : P) (s : SState) :
    Option M × SState :=
  let s1 : SState := { s with nodes := 0, tt := [] }
  let player := E.curPlayer pos
  let rootMoves := order_moves_fast E pos (E.legalMoves pos player)
  depthLoop E pos player rootMoves (List.range' 1 MAX_DEPTH) none s1

/-- `choose_best_move(fen_str)` (lines 293-315) after FEN parsing: the
quick-win pre-check applies the first 3 ordered moves to copies and returns
the first whose application wins for the mover; otherwise defer to
`iterative_deepening`. -/
def choose_best_move (E : Engine P M) (pos : P) (s : SState) :
    Option M × SState :=
  let player := E.curPlayer pos
  let moves := order_moves_fast E pos (E.legalMoves pos player)
  match (moves.take 3).find? (fun mv => E.hasWon (E.makeMove pos mv) player) with
  | some mv => (some mv, s)
  | none => iterative_deepening E pos s

/-!
The game-phase classifier and time allocator (`alpha_beta_ki.py` lines
53-150) are pure functions of the FEN string; they are embedded over
`List Char`.  Python string primitives used: `str.count` of a single
character, `str.count` of a two-character substring (non-overlapping,
left-to-right), `str.endswith(' r')`, `str.split()` (whitespace runs,
empties dropped) and `str.split('/')` (empties kept).
-/

/-- Python whitespace for `str.split()` with no separator. -/
def pyIsSpace (c : Char) : Bool :=
  c = ' ' || c = '\t' || c = '\n' || c = '\x0d' || c = '\x0b' || c = '\x0c'

/-- `s.count(c)` for a single character. -/
def countChar (c : Char) : List Char → Nat
  | [] => 0
  | x :: r => (if x = c then 1 else 0) + countChar c r

/-- `s.count(ab)` for a two-character substring: Python counts
non-overlapping occurrences scanning left to right. -/
def countSub2 (a b : Char) : List Char → Nat
  | [] => 0
  | [_] => 0
  | x :: y :: r =>
    if x = a && y = b then 1 + countSub2 a b r
    else countSub2 a b (y :: r)

/-- `fen_str.endswith(' r')`. -/
def endsWithSpaceR (s : List Char) : Bool :=
  match s.reverse with
  | c1 :: c2 :: _ => c1 = 'r' && c2 = ' '
  | _ => false

/-- Accumulator worker for `str.split()`. -/
def wordsAux : List Char → List Char → List (List Char)
  | [], acc => if acc.isEmpty then [] else [acc.reverse]
  | c :: r, acc =>
    if pyIsSpace c then
      if acc.isEmpty then wordsAux r [] else acc.reverse :: wordsAux r []
    else wordsAux r (c :: acc)

/-- `s.split()`: split on whitespace runs, dropping empty pieces. -/
def pySplitWs (s : List Char) : List (List Char) := wordsAux s []

/-- `s.split('/')`: split on every slash, keeping empty pieces. -/
def splitOnSlash : List Char → List (List Char)
  | [] => [[]]
  | c :: r =>
    let rest := splitOnSlash r
    if c = '/' then [] :: rest
    else
      match rest with
      | [] => [[c]]
      | h :: t => (c :: h) :: t

/-- `count_my_pieces(fen_str)` (lines 58-64): the side to move's piece count.
Note that for red the lowercase `r` of the side-to-move tag is itself
counted by `fen_str.count('r')`. -/
def count_my_pieces (s : List Char) : Nat :=
  let player := if endsWithSpaceR s then 1 else 2
  if player = 1 then countChar 'r' s + countSub2 'R' 'G' s
  else countChar 'b' s + countSub2 'B' 'G' s

/-- `count_enemy_pieces(fen_str)` (lines 67-73). -/
def count_enemy_pieces (s : List Char) : Nat :=
  let player := if endsWithSpaceR s then 1 else 2
  if player = 1 then countChar 'b' s + countSub2 'B' 'G' s
  else countChar 'r' s + countSub2 'R' 'G' s

/-- `diff_of_pieces(fen_str)` (lines 76-80). -/
def diff_of_pieces (s : List Char) : Int :=
  (count_my_pieces s : Int) - (count_enemy_pieces s : Int)

/-- `count_enemy_pieces_in_half(fen_str)` (lines 83-101).  `none` models the
`IndexError` that `fen_str.split()[0]` raises on an all-whitespace string. -/
def count_enemy_pieces_in_half (s : List Char) : Option Nat :=
  match pySplitWs s with
  | [] => none
  | first :: _ =>
    let rows := splitOnSlash first
    let player := if endsWithSpaceR s then 1 else 2
    let halfRows := if player = 1 then (rows.drop 4).take 3 else rows.take 3
    some (halfRows.foldl
      (fun acc row =>
        acc + (if player = 1 then countChar 'b' row + countSub2 'B' 'G' row
               else countChar 'r' row + countSub2 'R' 'G' row)) 0)

/-- `detect_game_phase(fen_str)` (lines 104-135). -/
def detect_game_phase (s : List Char) : Option String :=
  let piece_diff := diff_of_pieces s
  match count_enemy_pieces_in_half s with
  | none => none
  | some enemy_in_half =>
    let my_pieces := count_my_pieces s
    let enemy_pieces := count_enemy_pieces s
    let total := my_pieces + enemy_pieces
    let base : String :=
      if 12 ≤ total then ("opening")
      else if 7 ≤ total then ("midgame")
      else ("endgame")
    let crit : Nat :=
      (if piece_diff ≤ -3 then 2 else if piece_diff ≤ -1 then 1 else 0)
      + (if 3 ≤ enemy_in_half then 2 else if 1 ≤ enemy_in_half then 1 else 0)
      + (if my_pieces ≤ 2 || enemy_pieces ≤ 2 then 3 else 0)
    some (if 3 ≤ crit then ("critical")
          else if 1 ≤ crit && base ≠ ("endgame") then base ++ ("_critical")
          else base)

/-- The phase-to-seconds table of `allocate_time` (lines 141-150), including
the `.get(phase, 0.2)` default. -/
def budgetOf (phase : String) : ℚ :=
  if phase = ("opening") then 0.2
  else if phase = ("midgame") then 0.3
  else if phase = ("opening_critical") then 0.4
  else if phase = ("midgame_critical") then 0.5
  else if phase = ("critical") then 0.5
  else if phase = ("endgame") then 0.2
  else if phase = ("endgame_critical") then 0.2
  else 0.2

/-- `allocate_time(fen_str)` (lines 138-150); `none` propagates the
`IndexError` of `detect_game_phase` on all-whitespace input. -/
def allocate_time (s : List Char) : Option ℚ :=
  (detect_game_phase s).map budgetOf

/-!
The board model of `core/bitboard.py` as used by `evaluate.py`,
`win_check.py` and `core/fen.py`: per-player guardian bitboards and one
bitboard per tower height 1..7, on a 7x7 board with bit index `y * 7 + x`
(as decoded by `evaluate.py`: `gx, gy = pos % size, pos // size`).
-/

/-- `BitboardBoard`: guardian and tower bitboards (arbitrary naturals; real
boards use bits 0..48). -/
structure Board : Type where
  red_guardian : Nat
  blue_guardian : Nat
  red_towers : Nat → Nat
  blue_towers : Nat → Nat

/-- `board.SIZE = 7`. -/
def SIZE : Nat := 7

/-- Bit index of square `(x, y)`. -/
def idxOf (x y : Nat) : Nat := y * SIZE + x

/-- Python `int.bit_count()`, with enough fuel for any bitboard below
`2 ^ 128` (real boards use 49 bits). -/
def popcountF : Nat → Nat → Nat
  | 0, _ => 0
  | f + 1, n => if n = 0 then 0 else popcountF f (n / 2) + n % 2

/-- Python `int.bit_count()`. -/
def popcount (n : Nat) : Nat := popcountF 128 n

/-- Python `int.bit_length()` (0 for 0). -/
def bitLenF : Nat → Nat → Nat
  | 0, _ => 0
  | f + 1, n => if n = 0 then 0 else bitLenF f (n / 2) + 1

/-- Python `int.bit_length()`. -/
def bitLen (n : Nat) : Nat := bitLenF 128 n

/-- Python `abs` on ints. -/
def iabs (z : Int) : Int := if z < 0 then -z else z

/-- Modelled from the spec: the per-square owner accessor
`board.get_stack_owner(x, y)` of the external board collaborator
(`core/bitboard.py`, not part of the search core's sources): a square is
owned by red (1) if a red tower of any height 1..7 or the red guardian
occupies it, by blue (2) for blue pieces, else unowned. -/
def get_stack_owner (b : Board) (x y : Nat) : Option Nat :=
  let i := idxOf x y
  if (List.range 7).any (fun h => Nat.testBit (b.red_towers (h + 1)) i)
      || Nat.testBit b.red_guardian i then some 1
  else if (List.range 7).any (fun h => Nat.testBit (b.blue_towers (h + 1)) i)
      || Nat.testBit b.blue_guardian i then some 2
  else none

/-- `opponent_guardian_exists(board, opponent)` (`win_check.py` lines 11-18). -/
def opponent_guardian_exists (b : Board) (opponent : Nat) : Bool :=
  if opponent = 1 then b.red_guardian ≠ 0 else b.blue_guardian ≠ 0

/-- Modelled from the spec: `distance_to_opponent_start(board, player) == 0`
(module `distance_test`, not part of the search core's sources) holds
exactly when the player's guardian stands on the opponent's start square —
`(3, 6)` for red, `(3, 0)` for blue, the targets named in `evaluate.py`. -/
def distance_to_start_is_zero (b : Board) (player : Nat) : Bool :=
  if player = 1 then Nat.testBit b.red_guardian (idxOf 3 6)
  else Nat.testBit b.blue_guardian (idxOf 3 0)

/-- `check_win_by_distance_or_capture(board, player)` (`win_check.py`
lines 21-37). -/
def check_win_by_distance_or_capture (b : Board) (player : Nat) : Bool :=
  if distance_to_start_is_zero b player then true
  else if !opponent_guardian_exists b (3 - player) then true
  else false

/-- The ten evaluation weights of `evaluate.py` (`DEFAULT_PARAMS`,
lines 9-20). -/
structure Params : Type where
  material_weight : Int
  guardian_advance : Int
  guardian_safety : Int
  center_control : Int
  tower_height : Int
  aggression : Int
  mobility : Int
  positioning : Int
  tempo : Int
  win_bonus : Int
deriving DecidableEq, Repr

/-- `DEFAULT_PARAMS` (`evaluate.py` lines 9-20). -/
def DEFAULT_PARAMS : Params :=
  { material_weight := 80, guardian_advance := 40, guardian_safety := 200,
    center_control := 25, tower_height := 20, aggression := 50,
    mobility := 10, positioning := 10, tempo := 20, win_bonus := 10000 }

/-- `evaluate(fen_str, params)` (`evaluate.py` lines 22-156), expressed on
the parsed board and side to move: the Python function first runs
`parse_fen`, whose output on `board.to_fen(player)` is `(board, player)`
(the serialization is canonical), and then computes from those alone. -/
def evaluate (b : Board) (player : Nat) (params : Params) : Int :=
  if check_win_by_distance_or_capture b player then params.win_bonus
  else if check_win_by_distance_or_capture b (3 - player) then -params.win_bonus
  else
    let my_guard_bb := if player = 1 then b.red_guardian else b.blue_guardian
    let enemy_guard_bb := if player = 1 then b.blue_guardian else b.red_guardian
    let my_towers := if player = 1 then b.red_towers else b.blue_towers
    let enemy_towers := if player = 1 then b.blue_towers else b.red_towers
    let my_target : Nat × Nat := if player = 1 then (3, 6) else (3, 0)
    let counts := (List.range 7).foldl
      (fun (acc : Nat × Nat × Nat × Nat) i =>
        let h := i + 1
        let mc := popcount (my_towers h)
        let ec := popcount (enemy_towers h)
        (acc.1 + mc, acc.2.1 + ec,
         acc.2.2.1 + (if 3 ≤ h then h * mc else 0),
         acc.2.2.2 + (if 3 ≤ h then h * ec else 0)))
      (0, 0, 0, 0)
    let my_pieces := counts.1 + popcount my_guard_bb
    let enemy_pieces := counts.2.1 + popcount enemy_guard_bb
    let score1 : Int :=
      params.material_weight * ((my_pieces : Int) - (enemy_pieces : Int))
      + params.tower_height * ((counts.2.2.1 : Int) - (counts.2.2.2 : Int))
    let score2 : Int :=
      if my_guard_bb ≠ 0 then
        let gpos := bitLen my_guard_bb - 1
        let gx : Int := (gpos % SIZE : Nat)
        let gy : Int := (gpos / SIZE : Nat)
        let dist := iabs (gx - (my_target.1 : Int)) + iabs (gy - (my_target.2 : Int))
        let center_dist := iabs (gx - 3) + iabs (gy - 3)
        let edge_dist := min gx (min (6 - gx) (min gy (6 - gy)))
        score1 - params.guardian_advance * dist
          + params.center_control * max 0 (3 - center_dist)
          - (if edge_dist = 0 then Int.fdiv params.guardian_safety 2 else 0)
      else score1
    let centerSquares : List (Nat × Nat) := [(2,3), (3,3), (4,3), (2,4), (3,4), (4,4)]
    let centers := centerSquares.foldl
      (fun (acc : Nat × Nat) sq =>
        match get_stack_owner b sq.1 sq.2 with
        | some q =>
          if q = player then (acc.1 + 1, acc.2)
          else if q = 3 - player then (acc.1, acc.2 + 1)
          else acc
        | none => acc)
      (0, 0)
    let score3 := score2 + params.center_control * ((centers.1 : Int) - (centers.2 : Int))
    let mobility_score := (List.range 3).foldl
      (fun acc i => acc + popcount (my_towers (i + 1)) * (i + 1)) 0
    let score4 := score3 + params.mobility * (mobility_score : Int)
    let score5 : Int :=
      if enemy_guard_bb ≠ 0 then
        let epos := bitLen enemy_guard_bb - 1
        let ex : Int := (epos % SIZE : Nat)
        let ey : Int := (epos / SIZE : Nat)
        let threats := (List.range 3).foldl
          (fun acc i =>
            let h := i + 1
            acc + ((List.range (min 20 (SIZE * SIZE))).countP
              (fun p =>
                Nat.testBit (my_towers h) p
                && iabs ((p % SIZE : Nat) - ex) + iabs ((p / SIZE : Nat) - ey)
                    ≤ (h : Int) + 1)))
          0
        score4 + params.aggression * (threats : Int)
      else score4
    let middle := SIZE / 2
    let adv := (List.range 2).foldl
      (fun (acc : Nat × Nat) i =>
        let h := i + 1
        (List.range (SIZE * middle)).foldl
          (fun (a : Nat × Nat) p =>
            if player = 1 && Nat.testBit (my_towers h) p then (a.1 + 1, a.2)
            else if player = 2 && Nat.testBit (enemy_towers h) p then (a.1, a.2 + 1)
            else a)
          acc)
      (0, 0)
    let score6 := score5 + params.positioning * ((adv.1 : Int) - (adv.2 : Int))
    let tempo_score : Int := (my_pieces : Int) * 2 - (enemy_pieces : Int)
    let score7 := score6 + params.tempo * tempo_score
    if player = 1 then score7 else -score7

/-- Moves of the board collaborator: `(from, to, height)` triples. -/
def RMove : Type := (Nat × Nat) × (Nat × Nat) × Nat

/-- The operations of the external rules engine
(`core/bitboard_rules.py`, not part of the search core's sources) that the
search consumes but whose behaviour no claim here depends on: legal-move
generation, move application, the guardian test of move ordering, and the
truncated FEN hash (`hash` is runtime-salted in Python). -/
structure RealExt : Type where
  legalMoves : Board × Nat → Nat → List RMove
  makeMove : Board × Nat → RMove → Board × Nat
  guardAt : Board × Nat → RMove → Bool
  keyOf : Board × Nat → Nat → Nat

/-- The concrete engine of `alpha_beta_ki.py`: positions are
`BitboardRules` states (board, `current_player`); win test, evaluation and
the capture classifier come from the embedded sources, the rest from the
external collaborator. -/
def realEngine (ext : RealExt) : Engine (Board × Nat) RMove :=
  { curPlayer := fun p => p.2
    legalMoves := ext.legalMoves
    makeMove := ext.makeMove
    setPlayer := fun p q => (p.1, q)
    hasWon := fun p q => check_win_by_distance_or_capture p.1 q
    eval := fun p q => evaluate p.1 q DEFAULT_PARAMS
    keyOf := ext.keyOf
    guardAt := ext.guardAt
    ownerAt := fun p mv => get_stack_owner p.1 mv.2.1.1 mv.2.1.2 }

/-- A trivial instantiation of the external rules collaborator, for runs
that never consult it (depth-0 searches). -/
def ext0 : RealExt :=
  { legalMoves := fun _ _ => [], makeMove := fun p _ => p,
    guardAt := fun _ _ => false, keyOf := fun _ _ => 0 }

/-- A position violating zero-sum evaluation symmetry: red guardian on
`(3, 5)`, blue guardian on `(3, 1)`, a red height-1 tower on `(3, 2)`
(bit 17, inside the 20-square aggression scan of `evaluate.py`), a blue
height-1 tower on `(3, 4)` (bit 31, outside that scan).  Nobody has won. -/
def B5 : Board :=
  { red_guardian := 2 ^ 38, blue_guardian := 2 ^ 10,
    red_towers := fun h => if h = 1 then 2 ^ 17 else 0,
    blue_towers := fun h => if h = 1 then 2 ^ 31 else 0 }

/-- A board on which red has won by arrival: red guardian on the target
`(3, 6)` (bit 45), blue guardian still on the board. -/
def Bwon : Board :=
  { red_guardian := 2 ^ 45, blue_guardian := 2 ^ 10,
    red_towers := fun _ => 0, blue_towers := fun _ => 0 }

/-!
Small abstract game instances over `P = Nat`, `M = Nat`, used to run the
driver on concrete inputs.  Move classification is trivial in all of them
(no guardian moves, no occupied destinations), so `order_moves_fast`
preserves the generated order.
-/

/-- Game for the cancellation claim: root position 0 with root moves
`[0, 1]` leading to positions 1 and 2; position 1 has the single reply 7
leading to position 3.  Depth-1 scores: move 0 scores 0, move 1 scores 5. -/
def cancelE : Engine Nat Nat :=
  { curPlayer := fun _ => 1
    legalMoves := fun p q =>
      if p = 0 && q = 1 then [0, 1] else if p = 1 && q = 2 then [7] else []
    makeMove := fun p m =>
      if p = 0 && m = 0 then 1 else if p = 0 && m = 1 then 2
      else if p = 1 && m = 7 then 3 else 99
    setPlayer := fun p _ => p
    hasWon := fun _ _ => false
    eval := fun p q => if p = 1 && q = 2 then 0 else if p = 2 && q = 2 then -5 else 0
    keyOf := fun p q => 3 * p + q
    guardAt := fun _ _ => false
    ownerAt := fun _ _ => none }

/-- Deadline polls for `cancelE`: the first seven polls (all of depth 1,
and depth 2 up to and including scoring root move 0) pass; the eighth poll —
reached before root move 1 of depth 2 — hits the deadline. -/
def cancelClock : List Bool := List.replicate 7 false ++ [true]

/-- Game for the win-shortcut claim: root moves `[0, 1, 2, 3]` lead to
positions 1..4; only position 4 — reached by root move 3, the fourth and
last ordered move — is a win for the mover. -/
def lateWinE : Engine Nat Nat :=
  { curPlayer := fun _ => 1
    legalMoves := fun p q => if p = 0 && q = 1 then [0, 1, 2, 3] else []
    makeMove := fun p m => p + m + 1
    setPlayer := fun p _ => p
    hasWon := fun p q => p = 4 && q = 1
    eval := fun _ _ => 0
    keyOf := fun p q => 3 * p + q
    guardAt := fun _ _ => false
    ownerAt := fun _ _ => none }

/-- Game with a win on the second root move (inside the pre-check window). -/
def earlyWinE : Engine Nat Nat :=
  { curPlayer := fun _ => 1
    legalMoves := fun p q => if p = 0 && q = 1 then [5, 6] else []
    makeMove := fun p m => p + m - 4
    setPlayer := fun p _ => p
    hasWon := fun p q => p = 2 && q = 1
    eval := fun _ _ => 0
    keyOf := fun p q => 3 * p + q
    guardAt := fun _ _ => false
    ownerAt := fun _ _ => none }

/-- Game for the null-move witness: the single move 4 from position 0 leads
to position 5, whose static value for the opponent is 9, so a null probe
with window `beta = 5` fails high. -/
def nullE : Engine Nat Nat :=
  { curPlayer := fun _ => 1
    legalMoves := fun p _ => if p = 0 then [4] else []
    makeMove := fun p m => p + m + 1
    setPlayer := fun p _ => p
    hasWon := fun _ _ => false
    eval := fun p _ => if p = 5 then 9 else 0
    keyOf := fun p q => 10 * p + q
    guardAt := fun _ _ => false
    ownerAt := fun _ _ => none }

/-- Game with one root move and no replies, for legality runs. -/
def oneMoveE : Engine Nat Nat :=
  { curPlayer := fun _ => 1
    legalMoves := fun p q => if p = 0 && q = 1 then [0] else []
    makeMove := fun p _ => p + 1
    setPlayer := fun p _ => p
    hasWon := fun _ _ => false
    eval := fun _ _ => 0
    keyOf := fun p q => 10 * p + q
    guardAt := fun _ _ => false
    ownerAt := fun _ _ => none }

/-- Game with no legal moves anywhere. -/
def stuckE : Engine Nat Nat :=
  { curPlayer := fun _ => 1
    legalMoves := fun _ _ => []
    makeMove := fun p _ => p
    setPlayer := fun p _ => p
    hasWon := fun _ _ => false
    eval := fun _ _ => 0
    keyOf := fun p q => 10 * p + q
    guardAt := fun _ _ => false
    ownerAt := fun _ _ => none }

/-! Helper lemmas. -/

/-- The guardian classification of `order_moves_fast` (line 172-173). -/
def isGuardMove (E : Engine P M) (pos : P) (mv : M) : Bool := E.guardAt pos mv

/-- The capture classification of `order_moves_fast` (lines 178-179):
destination owned by someone other than `rules.current_player`. -/
def isCaptureMove (E : Engine P M) (pos : P) (mv : M) : Bool :=
  match E.ownerAt pos mv with
  | some q => decide (q ≠ E.curPlayer pos)
  | none => false

theorem omfStep_eq (E : Engine P M) (pos : P) (g c o : List M) (mv : M) :
    omfStep E pos (g, c, o) mv =
      (g ++ (if isGuardMove E pos mv then [mv] else []),
       c ++ (if !isGuardMove E pos mv && isCaptureMove E pos mv then [mv] else []),
       o ++ (if !isGuardMove E pos mv && !isCaptureMove E pos mv then [mv] else [])) := by
  unfold omfStep isGuardMove isCaptureMove
  by_cases hg : E.guardAt pos mv
  · simp [hg]
  · cases ho : E.ownerAt pos mv with
    | some q =>
      by_cases hq : q = E.curPlayer pos <;> simp [hg, ho, hq]
    | none => simp [hg, ho]

theorem omfStep_foldl (E : Engine P M) (pos : P) :
    ∀ (ms g c o : List M),
      ms.foldl (omfStep E pos) (g, c, o) =
        (g ++ ms.filter (isGuardMove E pos),
         c ++ ms.filter (fun m => !isGuardMove E pos m && isCaptureMove E pos m),
         o ++ ms.filter (fun m => !isGuardMove E pos m && !isCaptureMove E pos m)) := by
  intro ms
  induction ms with
  | nil => intro g c o; simp
  | cons mv ms ih =>
    intro g c o
    rw [List.foldl_cons, omfStep_eq, ih]
    by_cases h1 : isGuardMove E pos mv <;> by_cases h2 : isCaptureMove E pos mv <;>
      simp [List.filter_cons, h1, h2, List.append_assoc]

theorem order_moves_fast_eq (E : Engine P M) (pos : P) (ms : List M) :
    order_moves_fast E pos ms =
      ms.filter (isGuardMove E pos)
      ++ ms.filter (fun m => !isGuardMove E pos m && isCaptureMove E pos m)
      ++ ms.filter (fun m => !isGuardMove E pos m && !isCaptureMove E pos m) := by
  cases ms with
  | nil => simp [order_moves_fast]
  | cons x r =>
    show order_moves_fast E pos (x :: r) = _
    rw [order_moves_fast]
    simp only [List.isEmpty_cons]
    rw [if_neg (by simp)]
    rw [omfStep_foldl E pos (x :: r) [] [] []]
    simp

theorem mem_of_mem_order_moves_fast {E : Engine P M} {pos : P} {ms : List M}
    {m : M} (h : m ∈ order_moves_fast E pos ms) : m ∈ ms := by
  rw [order_moves_fast_eq] at h
  rcases List.mem_append.mp h with h1 | h2
  · rcases List.mem_append.mp h1 with h3 | h4
    · exact List.mem_of_mem_filter h3
    · exact List.mem_of_mem_filter h4
  · exact List.mem_of_mem_filter h2

/-- The `best_mv` carried by any outcome of a depth iteration. -/
def RootOut.bmOf : RootOut M → Option M
  | .timeout b _ => b
  | .winstop b _ => b
  | .finished b _ => b

theorem rootLoop_bmOf (E : Engine P M) (pos : P) (player depth : Nat) :
    ∀ (ms : List M) (alpha beta lb : XInt) (bm : Option M) (s : SState),
      (rootLoop E pos player depth ms alpha beta lb bm s).bmOf = bm ∨
      ∃ m, m ∈ ms ∧
        (rootLoop E pos player depth ms alpha beta lb bm s).bmOf = some m := by
  intro ms
  induction ms with
  | nil => intro alpha beta lb bm s; left; rfl
  | cons mv rest ih =>
    intro alpha beta lb bm s
    rw [rootLoop]
    by_cases hc : (checkTime s).1
    · rw [if_pos hc]; left; rfl
    · rw [if_neg hc]
      cases hng : negamax E (depth - 1)
          (E.setPlayer (E.makeMove pos mv) (3 - player))
          (XInt.neg beta) (XInt.neg alpha) (3 - player) (checkTime s).2 with
      | error s2 => left; rfl
      | ok r =>
        obtain ⟨v, s2⟩ := r
        dsimp only
        rcases Bool.eq_false_or_eq_true (XInt.lt lb (XInt.neg v)) with hlt | hlt
        · simp only [hlt, eq_self_iff_true, if_true]
          rcases Bool.eq_false_or_eq_true (XInt.le (XInt.val WIN_SCORE) (XInt.neg v))
            with hwin | hwin
          · simp only [hwin, eq_self_iff_true, if_true]
            right; exact ⟨mv, List.mem_cons_self mv rest, rfl⟩
          · simp only [hwin, Bool.false_eq_true, if_false]
            rcases ih (xmax alpha (XInt.neg v)) beta (XInt.neg v) (some mv) s2
              with h1 | ⟨m, hm, h2⟩
            · right; exact ⟨mv, List.mem_cons_self mv rest, h1⟩
            · right; exact ⟨m, List.mem_cons_of_mem mv hm, h2⟩
        · simp only [hlt, Bool.false_eq_true, if_false]
          rcases Bool.eq_false_or_eq_true (XInt.le (XInt.val WIN_SCORE) lb) with hwin | hwin
          · simp only [hwin, eq_self_iff_true, if_true]
            left; rfl
          · simp only [hwin, Bool.false_eq_true, if_false]
            rcases ih (xmax alpha (XInt.neg v)) beta lb bm s2 with h1 | ⟨m, hm, h2⟩
            · left; exact h1
            · right; exact ⟨m, List.mem_cons_of_mem mv hm, h2⟩

theorem depthLoop_bm (E : Engine P M) (pos : P) (player : Nat) (rm : List M) :
    ∀ (ds : List Nat) (bm : Option M) (s : SState),
      (bm = none ∨ ∃ m, m ∈ rm ∧ bm = some m) →
      ((depthLoop E pos player rm ds bm s).1 = none ∨
       ∃ m, m ∈ rm ∧ (depthLoop E pos player rm ds bm s).1 = some m) := by
  intro ds
  induction ds with
  | nil => intro bm s h; exact h
  | cons d rest ih =>
    intro bm s h
    rw [depthLoop]
    cases hr : rootLoop E pos player d rm XInt.ninf XInt.pinf XInt.ninf bm s with
    | timeout bm2 s2 =>
      have hb := rootLoop_bmOf E pos player d rm XInt.ninf XInt.pinf XInt.ninf bm s
      rw [hr] at hb
      simp only [RootOut.bmOf] at hb
      rcases hb with hb | ⟨m, hm, hb⟩
      · rw [hb]; exact h
      · right; exact ⟨m, hm, hb⟩
    | winstop bm2 s2 =>
      have hb := rootLoop_bmOf E pos player d rm XInt.ninf XInt.pinf XInt.ninf bm s
      rw [hr] at hb
      simp only [RootOut.bmOf] at hb
      rcases hb with hb | ⟨m, hm, hb⟩
      · rw [hb]; exact h
      · right; exact ⟨m, hm, hb⟩
    | finished bm2 s2 =>
      have hb := rootLoop_bmOf E pos player d rm XInt.ninf XInt.pinf XInt.ninf bm s
      rw [hr] at hb
      simp only [RootOut.bmOf] at hb
      refine ih bm2 s2 ?_
      rcases hb with hb | ⟨m, hm, hb⟩
      · rw [hb]; exact h
      · right; exact ⟨m, hm, hb⟩

theorem countChar_pos (c : Char) :
    ∀ s : List Char, 0 < countChar c s → c ∈ s
  | [], h => by simp [countChar] at h
  | x :: r, h => by
    rw [countChar] at h
    by_cases hx : x = c
    · rw [hx]; exact List.mem_cons_self c r
    · rw [if_neg hx] at h
      simp only [Nat.zero_add] at h
      exact List.mem_cons_of_mem x (countChar_pos c r h)

theorem countSub2_pos (a b : Char) :
    ∀ s : List Char, 0 < countSub2 a b s → a ∈ s
  | [], h => by simp [countSub2] at h
  | [x], h => by simp [countSub2] at h
  | x :: y :: r, h => by
    rw [countSub2] at h
    by_cases hx : (x = a && y = b) = true
    · simp only [Bool.and_eq_true, decide_eq_true_eq] at hx
      rw [hx.1]
      exact List.mem_cons_self a (y :: r)
    · rw [if_neg hx] at h
      exact List.mem_cons_of_mem x (countSub2_pos a b (y :: r) h)

theorem wordsAux_acc_ne :
    ∀ (s acc : List Char), acc.isEmpty = false → wordsAux s acc ≠ []
  | [], acc, hacc => by
    rw [wordsAux, if_neg (by rw [hacc]; exact Bool.false_ne_true)]
    exact List.cons_ne_nil _ _
  | c :: r, acc, hacc => by
    rw [wordsAux]
    by_cases hsp : pyIsSpace c = true
    · rw [if_pos hsp, if_neg (by rw [hacc]; exact Bool.false_ne_true)]
      exact List.cons_ne_nil _ _
    · rw [if_neg hsp]
      exact wordsAux_acc_ne r (c :: acc) (by simp)

theorem wordsAux_nil_all_space :
    ∀ (s acc : List Char), wordsAux s acc = [] → ∀ c ∈ s, pyIsSpace c = true
  | [], _, _ => by intro c hc; cases hc
  | x :: r, acc, h => by
    intro c hc
    rw [wordsAux] at h
    by_cases hsp : pyIsSpace x = true
    · rw [if_pos hsp] at h
      rcases List.mem_cons.mp hc with hcx | hcr
      · rw [hcx]; exact hsp
      · by_cases hacc : acc.isEmpty = true
        · rw [if_pos hacc] at h
          exact wordsAux_nil_all_space r [] h c hcr
        · rw [if_neg hacc] at h
          exact absurd h (List.cons_ne_nil _ _)
    · rw [if_neg hsp] at h
      exact absurd h (wordsAux_acc_ne r (x :: acc) (by simp))

theorem pySplitWs_ne_nil {c : Char} (hc : pyIsSpace c = false) {s : List Char}
    (hm : c ∈ s) : pySplitWs s ≠ [] := by
  intro h
  have := wordsAux_nil_all_space s [] h c hm
  rw [hc] at this
  exact Bool.false_ne_true this

theorem count_half_none_iff (s : List Char) :
    count_enemy_pieces_in_half s = none → pySplitWs s = [] := by
  unfold count_enemy_pieces_in_half
  cases h : pySplitWs s with
  | nil => intro _; rfl
  | cons x r => intro hn; simp at hn

theorem total_pieces_split_ne_nil {s : List Char}
    (h : 0 < count_my_pieces s + count_enemy_pieces s) : pySplitWs s ≠ [] := by
  have key : ∃ c, pyIsSpace c = false ∧ c ∈ s := by
    unfold count_my_pieces count_enemy_pieces at h
    by_cases hend : endsWithSpaceR s = true
    · simp only [hend, if_true, eq_self_iff_true] at h
      have h4 : 0 < countChar 'r' s ∨ 0 < countSub2 'R' 'G' s ∨
          0 < countChar 'b' s ∨ 0 < countSub2 'B' 'G' s := by omega
      rcases h4 with h5 | h5 | h5 | h5
      · exact ⟨'r', by decide, countChar_pos _ s h5⟩
      · exact ⟨'R', by decide, countSub2_pos _ _ s h5⟩
      · exact ⟨'b', by decide, countChar_pos _ s h5⟩
      · exact ⟨'B', by decide, countSub2_pos _ _ s h5⟩
    · simp only [Bool.not_eq_true] at hend
      simp only [hend, Bool.false_eq_true, if_false] at h
      rw [if_neg (by decide : ¬((2 : Nat) = 1)), if_neg (by decide : ¬((2 : Nat) = 1))] at h
      have h4 : 0 < countChar 'r' s ∨ 0 < countSub2 'R' 'G' s ∨
          0 < countChar 'b' s ∨ 0 < countSub2 'B' 'G' s := by omega
      rcases h4 with h5 | h5 | h5 | h5
      · exact ⟨'r', by decide, countChar_pos _ s h5⟩
      · exact ⟨'R', by decide, countSub2_pos _ _ s h5⟩
      · exact ⟨'b', by decide, countChar_pos _ s h5⟩
      · exact ⟨'B', by decide, countSub2_pos _ _ s h5⟩
  rcases key with ⟨c, hc1, hc2⟩
  exact pySplitWs_ne_nil hc1 hc2

/-! Claim theorems. -/

/-- C9: for every candidate move list of the side to move, `order_moves_fast`
returns the concatenation of (1) the moves of the guardian unit, (2) the
moves landing on a square occupied by an opposing unit, and (3) all
remaining moves; each partition is a `List.filter` of the input list, so
each preserves the original relative order, and the classifying predicates
`isGuardMove` and `isCaptureMove` read only the two board accessors at the
move's own squares on the unchanged root position — no move is applied and
there is no recursive lookahead. -/
theorem order_moves_fast_three_partitions (E : Engine P M) (pos : P) (ms : List M) :
    order_moves_fast E pos ms =
      ms.filter (isGuardMove E pos)
      ++ ms.filter (fun m => !isGuardMove E pos m && isCaptureMove E pos m)
      ++ ms.filter (fun m => !isGuardMove E pos m && !isCaptureMove E pos m) :=
  order_moves_fast_eq E pos ms

/-- C8: the transposition table and the node counter are owned by one
top-level search call: `iterative_deepening` zeroes the counter and clears
the table before doing anything else, so its entire outcome (move chosen
and final state alike) is independent of whatever table contents and count
an earlier call left behind, and `choose_best_move` picks the same move
regardless of that inherited state — nothing of either is ever read across
calls. -/
theorem search_state_owned_per_call (E : Engine P M) (pos : P) (c : List Bool)
    (n1 n2 : Nat) (t1 t2 : List ((Nat × Nat) × XInt)) :
    iterative_deepening E pos ⟨n1, t1, c⟩ = iterative_deepening E pos ⟨n2, t2, c⟩ ∧
    (choose_best_move E pos ⟨n1, t1, c⟩).1 = (choose_best_move E pos ⟨n2, t2, c⟩).1 := by
  have hiter : iterative_deepening E pos ⟨n1, t1, c⟩
      = iterative_deepening E pos ⟨n2, t2, c⟩ := rfl
  refine ⟨hiter, ?_⟩
  unfold choose_best_move
  cases hf : ((order_moves_fast E pos (E.legalMoves pos (E.curPlayer pos))).take 3).find?
      (fun mv => E.hasWon (E.makeMove pos mv) (E.curPlayer pos)) with
  | some mv => simp only [hf]
  | none => simp only [hf]; rw [hiter]

/-- C7: when the side to move has no legal root moves, the driver neither
finds a pre-check win nor enters any root-move loop; it returns the `None`
sentinel (with a freshly reset node counter and cleared table) rather than
failing. -/
theorem choose_best_move_no_moves (E : Engine P M) (pos : P) (s : SState)
    (h : E.legalMoves pos (E.curPlayer pos) = []) :
    choose_best_move E pos s = (none, ⟨0, [], s.clock⟩) := by
  unfold choose_best_move iterative_deepening
  dsimp only
  rw [h]
  rfl

/-- C7 witness: a concrete stuck game, run from a dirty prior state. -/
theorem choose_best_move_no_moves_witness :
    choose_best_move stuckE 0 ⟨5, [((1, 1), XInt.val 3)], [true]⟩
      = (none, ⟨0, [], [true]⟩) :=
  choose_best_move_no_moves stuckE 0 ⟨5, [((1, 1), XInt.val 3)], [true]⟩ rfl

/-- C6: whenever `choose_best_move` returns a move rather than the no-move
sentinel, that move is an element of the legal-move list generated for the
root position and the root side to move: the pre-check only returns one of
the first three ordered legal moves, and the deepening driver only ever
stores root moves into `best_mv`. -/
theorem choose_best_move_legal (E : Engine P M) (pos : P) (s : SState) (m : M)
    (h : (choose_best_move E pos s).1 = some m) :
    m ∈ E.legalMoves pos (E.curPlayer pos) := by
  unfold choose_best_move at h
  dsimp only at h
  cases hf : ((order_moves_fast E pos (E.legalMoves pos (E.curPlayer pos))).take 3).find?
      (fun mv => E.hasWon (E.makeMove pos mv) (E.curPlayer pos)) with
  | some mv =>
    rw [hf] at h
    simp only at h
    have hmv : mv = m := Option.some_injective _ h
    rw [← hmv]
    exact mem_of_mem_order_moves_fast
      (List.mem_of_mem_take (List.mem_of_find?_eq_some hf))
  | none =>
    rw [hf] at h
    simp only at h
    unfold iterative_deepening at h
    have hd := depthLoop_bm E pos (E.curPlayer pos)
      (order_moves_fast E pos (E.legalMoves pos (E.curPlayer pos)))
      (List.range' 1 MAX_DEPTH) none { s with nodes := 0, tt := [] } (Or.inl rfl)
    rcases hd with hd | ⟨m', hm', hd⟩
    · rw [h] at hd; cases hd
    · rw [h] at hd
      have : m' = m := Option.some_injective _ hd.symm
      rw [← this] at *
      exact mem_of_mem_order_moves_fast hm'

/-- C6 witness: the one-move game returns its single root move, which is in
the root legal-move list. -/
theorem choose_best_move_legal_witness : 0 ∈ oneMoveE.legalMoves 0 1 :=
  choose_best_move_legal oneMoveE 0 ⟨0, [], []⟩ 0 (by decide)

/-- C1 counterexample: in `cancelE` depth 1 completes with best move 1,
the deadline hits mid-depth-2 (the eighth poll, after root move 0 of
depth 2 was scored and had overwritten `best_mv`), and the driver returns
move 0 — a move selected by a score computed during the aborted depth —
instead of move 1, the best move of the last fully completed depth (the
run over the depth list `[1]` alone).  So partial results of an aborted
depth are not discarded and do influence the returned move. -/
theorem iterative_deepening_keeps_aborted_depth_cex :
    (iterative_deepening cancelE 0 ⟨0, [], cancelClock⟩).1 = some 0 ∧
    rootLoop cancelE 0 1 1 (order_moves_fast cancelE 0 (cancelE.legalMoves 0 1))
        XInt.ninf XInt.pinf XInt.ninf none ⟨0, [], cancelClock⟩
      = .finished (some 1)
          ⟨2, [((8, 0), XInt.val (-5)), ((5, 0), XInt.val 0)],
            [false, false, false, true]⟩ ∧
    rootLoop cancelE 0 1 2 (order_moves_fast cancelE 0 (cancelE.legalMoves 0 1))
        XInt.ninf XInt.pinf XInt.ninf (some 1)
        ⟨2, [((8, 0), XInt.val (-5)), ((5, 0), XInt.val 0)],
          [false, false, false, true]⟩
      = .timeout (some 0)
          ⟨4, [((5, 1), XInt.val 0), ((10, 0), XInt.val 0), ((8, 0), XInt.val (-5)),
              ((5, 0), XInt.val 0)], []⟩ ∧
    (depthLoop cancelE 0 1 (order_moves_fast cancelE 0 (cancelE.legalMoves 0 1))
        [1] none ⟨0, [], cancelClock⟩).1 = some 1 ∧
    (0 : Nat) ≠ 1 := by decide

/-- C1 amended: when cancellation is signaled during a depth iteration, the
driver returns the current running best move, which keeps rather than
discards the aborted depth's partial results: the best-move value carried
out of the cancelled iteration is either the value it had entering the
depth (the best of the last fully completed depth) or one of this depth's
root moves that was already fully scored before the cancellation — and the
counterexample shows the latter case reaches the caller. -/
theorem rootLoop_timeout_keeps_partial (E : Engine P M) (pos : P)
    (player depth : Nat) (ms : List M) (alpha beta lb : XInt) (bm bm2 : Option M)
    (s s2 : SState)
    (h : rootLoop E pos player depth ms alpha beta lb bm s = .timeout bm2 s2) :
    bm2 = bm ∨ ∃ m, m ∈ ms ∧ bm2 = some m := by
  have hb := rootLoop_bmOf E pos player depth ms alpha beta lb bm s
  rw [h] at hb
  simp only [RootOut.bmOf] at hb
  exact hb

/-- C1 amended witness: the cancelled depth-2 iteration of the
counterexample game hands back move 0, a root move of the aborted depth. -/
theorem rootLoop_timeout_keeps_partial_witness :
    some (0 : Nat) = some 1 ∨ ∃ m, m ∈ [0, 1] ∧ some (0 : Nat) = some m :=
  rootLoop_timeout_keeps_partial cancelE 0 1 2 [0, 1] XInt.ninf XInt.pinf XInt.ninf
    (some 1) (some 0)
    ⟨2, [((8, 0), XInt.val (-5)), ((5, 0), XInt.val 0)], [false, false, false, true]⟩
    ⟨4, [((5, 1), XInt.val 0), ((10, 0), XInt.val 0), ((8, 0), XInt.val (-5)),
        ((5, 0), XInt.val 0)], []⟩
    (by decide)

/-- C3 counterexample: in `lateWinE` root move 3 wins immediately for the
mover and is legal, but it is the fourth ordered root move, so the bounded
pre-check (first 3 moves only) misses it; with the deadline already
expired, `choose_best_move` returns the no-move sentinel instead of any
immediately winning move. -/
theorem choose_best_move_misses_late_win_cex :
    lateWinE.hasWon (lateWinE.makeMove 0 3) 1 = true ∧
    3 ∈ lateWinE.legalMoves 0 1 ∧
    (choose_best_move lateWinE 0 ⟨0, [], [true]⟩).1 = none := by decide

/-- C3 amended: if some move among the first 3 ordered root moves wins
immediately for the mover, then `choose_best_move` returns such a move via
the bounded pre-check (independent of any deadline, before any deepening);
a winning move ordered outside the first 3 can be missed by the pre-check. -/
theorem choose_best_move_precheck_win (E : Engine P M) (pos : P) (s : SState)
    (hm : ∃ mv, mv ∈ (order_moves_fast E pos (E.legalMoves pos (E.curPlayer pos))).take 3
        ∧ E.hasWon (E.makeMove pos mv) (E.curPlayer pos) = true) :
    ∃ mv, (choose_best_move E pos s).1 = some mv ∧
      E.hasWon (E.makeMove pos mv) (E.curPlayer pos) = true ∧
      mv ∈ (order_moves_fast E pos (E.legalMoves pos (E.curPlayer pos))).take 3 := by
  unfold choose_best_move
  dsimp only
  cases hf : ((order_moves_fast E pos (E.legalMoves pos (E.curPlayer pos))).take 3).find?
      (fun mv => E.hasWon (E.makeMove pos mv) (E.curPlayer pos)) with
  | some mv =>
    refine ⟨mv, rfl, ?_, List.mem_of_find?_eq_some hf⟩
    have h1 := List.find?_some hf
    simpa using h1
  | none =>
    exfalso
    rcases hm with ⟨mv, hmem, hwin⟩
    exact absurd hwin (by simpa using List.find?_eq_none.mp hf mv hmem)

/-- C3 amended witness: in `earlyWinE` the winning move 6 is the second
ordered root move and the pre-check returns it even though the deadline is
already expired. -/
theorem choose_best_move_precheck_win_witness :
    ∃ mv, (choose_best_move earlyWinE 0 ⟨0, [], [true]⟩).1 = some mv ∧
      earlyWinE.hasWon (earlyWinE.makeMove 0 mv) 1 = true ∧
      mv ∈ (order_moves_fast earlyWinE 0 (earlyWinE.legalMoves 0 1)).take 3 :=
  choose_best_move_precheck_win earlyWinE 0 ⟨0, [], [true]⟩ ⟨6, by decide, by decide⟩

/-- C2: null-move pruning in `negamax`.  First part: at `depth > 2` (and a
live deadline, fresh table key, no terminal win, nonempty move list), the
engine first probes the position with the side-to-move field flipped and no
move applied, at `depth - 1 - NULL_MOVE_REDUCTION` with the negated window;
if the negated probe result reaches `beta`, it returns `beta` at once — the
returned state is exactly the probe's state with `beta` cached, so no real
move was explored.  Second part: at `depth ≤ 2` the same entry conditions
send the engine directly into the ordered move loop (`mainSearch`) — no
null-move probe exists on that path. -/
theorem negamax_null_move (E : Engine P M) (pos : P) (alpha beta : XInt)
    (player n : Nat) (tt : List ((Nat × Nat) × XInt)) (rest : List Bool) :
    (∀ (d : Nat) (v : XInt) (s2 : SState),
      ttLookup tt (E.keyOf pos player, d + 3) = none →
      E.hasWon pos player = false →
      E.hasWon pos (3 - player) = false →
      (E.legalMoves pos player).isEmpty = false →
      negamaxF E (d + 3) (d + 3 - 1 - NULL_MOVE_REDUCTION) (E.setPlayer pos (3 - player))
          (XInt.neg beta) (XInt.neg alpha) player ⟨n + 1, tt, rest⟩ = .ok (v, s2) →
      XInt.le beta (XInt.neg v) = true →
      negamax E (d + 3) pos alpha beta player ⟨n, tt, false :: rest⟩
        = .ok (beta, sStore s2 (E.keyOf pos player, d + 3) beta)) ∧
    (∀ depth : Nat, depth ≤ 2 → depth ≠ 0 →
      ttLookup tt (E.keyOf pos player, depth) = none →
      E.hasWon pos player = false →
      E.hasWon pos (3 - player) = false →
      (E.legalMoves pos player).isEmpty = false →
      negamax E depth pos alpha beta player ⟨n, tt, false :: rest⟩
        = mainSearch E (fun p a b q s' => negamaxF E depth (depth - 1) p a b q s')
            pos alpha beta player (E.keyOf pos player, depth) ⟨n + 1, tt, rest⟩) := by
  constructor
  · intro d v s2 htt hw1 hw2 hmv hprobe hcut
    unfold negamax
    rw [negamaxF]
    dsimp only [checkTime]
    rw [htt]
    simp only [hw1, hw2, Bool.false_eq_true, if_false]
    rw [hmv]
    rw [if_neg (by simp), if_pos (by omega : 2 < d + 3)]
    rw [hprobe]
    dsimp only
    rw [if_pos hcut]
  · intro depth hd2 hd0 htt hw1 hw2 hmv
    unfold negamax
    rw [negamaxF]
    dsimp only [checkTime]
    rw [htt]
    simp only [hw1, hw2, Bool.false_eq_true, if_false]
    rw [hmv]
    rw [if_neg (by simp [hd0]), if_neg (by omega : ¬(2 < depth))]

/-- C2 witness: a concrete depth-3 fail-high null-move cutoff in `nullE`. -/
theorem negamax_null_move_witness :
    negamax nullE 3 0 (XInt.val 0) (XInt.val 5) 1 ⟨0, [], [false, false, false]⟩
      = .ok (XInt.val 5,
          sStore ⟨3, [((1, 1), XInt.val (-9)), ((52, 0), XInt.val 9)], []⟩
            (1, 3) (XInt.val 5)) :=
  (negamax_null_move nullE 0 (XInt.val 0) (XInt.val 5) 1 0 [] [false, false]).1
    0 (XInt.val (-9)) ⟨3, [((1, 1), XInt.val (-9)), ((52, 0), XInt.val 9)], []⟩
    rfl rfl rfl rfl rfl rfl

/-- Scenario-D counterexample FEN: red to move with 1 red tower, red
guardian and the side-tag `r` (3 counted "my" pieces) against 5 blue towers
and the blue guardian (6 enemy pieces): total 9, differential −3 — and one
blue tower sits on red's half, adding one more criticality point. -/
def fenD : List Char := ("3BG3/b1b1b1b13/7/7/r16/3b13/3RG3 r").data

/-- A Scenario-D position with no invasion: total 9, differential −3,
criticality 2. -/
def fenDquiet : List Char := ("3BG3/b1b1b1b1b12/7/7/r16/7/3RG3 r").data

/-- C4 counterexample: `fenD` has total material 9 and differential −3, yet
the classifier returns phase `critical` (criticality 2 + 1 from the
invading piece reaches 3), not `midgame_critical` as the claim requires for
every such position. -/
theorem detect_game_phase_scenario_d_cex :
    count_my_pieces fenD + count_enemy_pieces fenD = 9 ∧
    diff_of_pieces fenD ≤ -3 ∧
    detect_game_phase fenD = some ("critical") ∧
    ¬ detect_game_phase fenD = some ("midgame_critical") := by decide

/-- C4 amended: for every position of total material 9 and differential
≤ −3, the phase is `midgame_critical` or `critical` (the former exactly
when no further criticality point accrues), and in either case the
allocated budget is 0.5 seconds — the budget half of the scenario holds
unconditionally. -/
theorem scenario_d_budget (s : List Char)
    (htot : count_my_pieces s + count_enemy_pieces s = 9)
    (hdiff : diff_of_pieces s ≤ -3) :
    (detect_game_phase s = some ("midgame_critical") ∨
     detect_game_phase s = some ("critical")) ∧
    allocate_time s = some 0.5 := by
  have hsplit : pySplitWs s ≠ [] := total_pieces_split_ne_nil (by omega)
  have hhalf : ∃ k, count_enemy_pieces_in_half s = some k := by
    cases hch : count_enemy_pieces_in_half s with
    | none => exact absurd (count_half_none_iff s hch) hsplit
    | some k => exact ⟨k, rfl⟩
  rcases hhalf with ⟨k, hk⟩
  have hphase : detect_game_phase s = some ("midgame_critical") ∨
      detect_game_phase s = some ("critical") := by
    unfold detect_game_phase
    rw [hk]
    dsimp only
    rw [htot]
    rw [if_neg (by omega : ¬(12 ≤ 9)), if_pos (by omega : (7 : ℕ) ≤ 9)]
    rw [if_pos hdiff]
    split_ifs <;>
      first
      | (left; rfl)
      | (right; rfl)
      | (exfalso; simp_all)
  refine ⟨hphase, ?_⟩
  unfold allocate_time
  rcases hphase with h | h <;> rw [h] <;> simp [budgetOf]

/-- C4 amended witness: the quiet Scenario-D position classifies as
`midgame_critical` with budget 0.5 s. -/
theorem scenario_d_budget_witness :
    (detect_game_phase fenDquiet = some ("midgame_critical") ∨
     detect_game_phase fenDquiet = some ("critical")) ∧
    allocate_time fenDquiet = some 0.5 :=
  scenario_d_budget fenDquiet (by decide) (by decide)

theorem phase_aux (base : String) (crit : Nat)
    (hb : base = ("opening") ∨ base = ("midgame") ∨ base = ("endgame")) :
    (if 3 ≤ crit then ("critical")
     else if 1 ≤ crit && base ≠ ("endgame") then base ++ ("_critical")
     else base) = ("opening") ∨
    (if 3 ≤ crit then ("critical")
     else if 1 ≤ crit && base ≠ ("endgame") then base ++ ("_critical")
     else base) = ("midgame") ∨
    (if 3 ≤ crit then ("critical")
     else if 1 ≤ crit && base ≠ ("endgame") then base ++ ("_critical")
     else base) = ("endgame") ∨
    (if 3 ≤ crit then ("critical")
     else if 1 ≤ crit && base ≠ ("endgame") then base ++ ("_critical")
     else base) = ("opening_critical") ∨
    (if 3 ≤ crit then ("critical")
     else if 1 ≤ crit && base ≠ ("endgame") then base ++ ("_critical")
     else base) = ("midgame_critical") ∨
    (if 3 ≤ crit then ("critical")
     else if 1 ≤ crit && base ≠ ("endgame") then base ++ ("_critical")
     else base) = ("critical") := by
  by_cases h3 : 3 ≤ crit
  · rw [if_pos h3]; simp
  · rw [if_neg h3]
    by_cases hcb : (1 ≤ crit && base ≠ ("endgame")) = true
    · rw [if_pos hcb]
      simp only [Bool.and_eq_true, decide_eq_true_eq] at hcb
      rcases hb with rfl | rfl | rfl
      · simp
      · simp
      · exact absurd rfl hcb.2
    · rw [if_neg hcb]
      rcases hb with rfl | rfl | rfl <;> simp

/-- C10: on every input string the classifier yields one of `opening`,
`midgame`, `endgame`, `opening_critical`, `midgame_critical`, `critical`
(or propagates the IndexError of an all-whitespace input) — never
`endgame_critical`, whose budget-table entry is therefore dead — and the
allocated budget is correspondingly always 0.2, 0.3, 0.4 or 0.5 seconds. -/
theorem detect_game_phase_range (s : List Char) :
    (detect_game_phase s = none ∨
     detect_game_phase s = some ("opening") ∨
     detect_game_phase s = some ("midgame") ∨
     detect_game_phase s = some ("endgame") ∨
     detect_game_phase s = some ("opening_critical") ∨
     detect_game_phase s = some ("midgame_critical") ∨
     detect_game_phase s = some ("critical")) ∧
    (allocate_time s = none ∨ allocate_time s = some 0.2 ∨
     allocate_time s = some 0.3 ∨ allocate_time s = some 0.4 ∨
     allocate_time s = some 0.5) := by
  have hph : detect_game_phase s = none ∨
      detect_game_phase s = some ("opening") ∨
      detect_game_phase s = some ("midgame") ∨
      detect_game_phase s = some ("endgame") ∨
      detect_game_phase s = some ("opening_critical") ∨
      detect_game_phase s = some ("midgame_critical") ∨
      detect_game_phase s = some ("critical") := by
    unfold detect_game_phase
    cases hk : count_enemy_pieces_in_half s with
    | none => left; rfl
    | some k =>
      dsimp only
      have hb : (if 12 ≤ count_my_pieces s + count_enemy_pieces s then ("opening")
            else if 7 ≤ count_my_pieces s + count_enemy_pieces s then ("midgame")
            else ("endgame")) = ("opening") ∨
          (if 12 ≤ count_my_pieces s + count_enemy_pieces s then ("opening")
            else if 7 ≤ count_my_pieces s + count_enemy_pieces s then ("midgame")
            else ("endgame")) = ("midgame") ∨
          (if 12 ≤ count_my_pieces s + count_enemy_pieces s then ("opening")
            else if 7 ≤ count_my_pieces s + count_enemy_pieces s then ("midgame")
            else ("endgame")) = ("endgame") := by
        split_ifs <;> simp
      rcases phase_aux _
          ((if diff_of_pieces s ≤ -3 then 2
            else if diff_of_pieces s ≤ -1 then 1 else 0)
           + (if 3 ≤ k then 2 else if 1 ≤ k then 1 else 0)
           + (if count_my_pieces s ≤ 2 || count_enemy_pieces s ≤ 2 then 3 else 0))
          hb with h | h | h | h | h | h <;> rw [h] <;> simp
  refine ⟨hph, ?_⟩
  unfold allocate_time
  rcases hph with h | h | h | h | h | h | h <;> rw [h] <;> simp [budgetOf]

/-- C5 counterexample: at depth 0 with the full window, a far-future
deadline and null-move pruning structurally inactive, `negamax` on `B5`
returns 70 for red but −50 for blue — `70 ≠ −(−50)`, so the zero-sum
negation symmetry fails: the static evaluator is not antisymmetric in the
side to move (its aggression scan covers only board squares 0–19 and its
advancement count is one-sided). -/
theorem negamax_zero_sum_cex :
    negamax (realEngine ext0) 0 (B5, 1) XInt.ninf XInt.pinf 1 ⟨0, [], []⟩
      = .ok (XInt.val 70, ⟨1, [((0, 0), XInt.val 70)], []⟩) ∧
    negamax (realEngine ext0) 0 (B5, 1) XInt.ninf XInt.pinf 2 ⟨0, [], []⟩
      = .ok (XInt.val (-50), ⟨1, [((0, 0), XInt.val (-50))], []⟩) ∧
    ¬ XInt.val 70 = XInt.neg (XInt.val (-50)) :=
  ⟨rfl, rfl, by decide⟩

/-- C5 amended: the zero-sum negation identity does hold at terminal
positions: whenever exactly one side has won,
`negamax(P, D, player) = WIN_SCORE = -negamax(P, D, opponent)` for every
depth, window `(-inf, inf)`, fresh table and live deadline; at non-terminal
positions the identity can fail because the external evaluator is not
antisymmetric (see the counterexample). -/
theorem negamax_terminal_zero_sum (ext : RealExt) (B : Board) (cp p d n : Nat)
    (hp : p = 1 ∨ p = 2)
    (hw : check_win_by_distance_or_capture B p = true)
    (hl : check_win_by_distance_or_capture B (3 - p) = false) :
    negamax (realEngine ext) d (B, cp) XInt.ninf XInt.pinf p ⟨n, [], []⟩
      = .ok (XInt.val WIN_SCORE,
          sStore ⟨n + 1, [], []⟩ (ext.keyOf (B, cp) p, d) (XInt.val WIN_SCORE)) ∧
    negamax (realEngine ext) d (B, cp) XInt.ninf XInt.pinf (3 - p) ⟨n, [], []⟩
      = .ok (XInt.neg (XInt.val WIN_SCORE),
          sStore ⟨n + 1, [], []⟩ (ext.keyOf (B, cp) (3 - p), d)
            (XInt.neg (XInt.val WIN_SCORE))) := by
  constructor
  · unfold negamax
    rw [negamaxF]
    dsimp only [checkTime, ttLookup, realEngine]
    simp only [hw, eq_self_iff_true, if_true, Bool.false_eq_true, if_false]
  · have h33 : 3 - (3 - p) = p := by rcases hp with rfl | rfl <;> rfl
    unfold negamax
    rw [negamaxF]
    dsimp only [checkTime, ttLookup, realEngine]
    rw [h33]
    simp only [hl, hw, Bool.false_eq_true, if_false, eq_self_iff_true, if_true]
    rfl

/-- C5 amended witness: on `Bwon` (red guardian arrived) the two calls
return `WIN_SCORE` and its negation at depth 0. -/
theorem negamax_terminal_zero_sum_witness :
    negamax (realEngine ext0) 0 (Bwon, 1) XInt.ninf XInt.pinf 1 ⟨0, [], []⟩
      = .ok (XInt.val WIN_SCORE, sStore ⟨1, [], []⟩ (0, 0) (XInt.val WIN_SCORE)) ∧
    negamax (realEngine ext0) 0 (Bwon, 1) XInt.ninf XInt.pinf 2 ⟨0, [], []⟩
      = .ok (XInt.neg (XInt.val WIN_SCORE),
          sStore ⟨1, [], []⟩ (0, 0) (XInt.neg (XInt.val WIN_SCORE))) :=
  negamax_terminal_zero_sum ext0 Bwon 1 1 0 0 (Or.inl rfl) (by decide) (by decide)
